import Mathlib

/-!
Verification of `cow::vector` (src/cow.h): a copy-on-write vector whose
mutating operations mutate the storage in place only when the container is
the sole holder of the shared storage pointer (`use_count() == 1`), and
otherwise build a fresh storage and swap the handle.

The embedding models the shared-pointer structure explicitly:
* storages live in a heap `Nat → List T` addressed by `Nat`;
* the container's `_storage` field is an `Option Nat` (null = `none`);
* outstanding read-only copies / snapshot iterators are a list `snaps` of
  captured addresses; `use_count` of the container's storage is
  `1 + (number of snapshots holding the same address)` when the handle is
  non-null, `0` when it is null, exactly as `std::shared_ptr::use_count`.
Each mutating operation is translated branch-for-branch from src/cow.h.
-/

namespace Cow

variable {T : Type}

/-- Heap update: `updH f a v` is the heap `f` with address `a` re-bound to `v`. -/
def updH (f : Nat → List T) (a : Nat) (v : List T) : Nat → List T :=
  fun b => if b = a then v else f b

/-- System state: storage heap, next fresh address, the container's
`_storage` handle, and the addresses captured by outstanding snapshots
(read-only copies and iterators). -/
structure Sys (T : Type) where
  heap : Nat → List T
  next : Nat
  handle : Option Nat
  snaps : List Nat

/-- `_storage.use_count()`: 0 for a null handle, otherwise the container's own
reference plus one per outstanding snapshot holding the same address. -/
def useCount (s : Sys T) : Nat :=
  match s.handle with
  | none => 0
  | some h => 1 + s.snaps.count h

/-- Allocate a fresh storage holding `l` and point the container's handle at it
(`TStoragePtr newStorage = ...; _storage = newStorage`). -/
def alloc (s : Sys T) (l : List T) : Sys T :=
  { s with heap := updH s.heap s.next l
         , handle := some s.next
         , next := s.next + 1 }

/-- The element sequence of the container: empty for a null handle, otherwise
the contents of the storage the handle points at. -/
def contents (s : Sys T) : List T :=
  match s.handle with
  | none => []
  | some h => s.heap h

/-- Capturing a snapshot (what `read_only_copy()` / `begin()` do to the
reference count): record the current handle among the snapshot holders.
A null handle captures nothing (the view substitutes the static empty
storage; the iterator becomes the sentinel). -/
def captureSnap (s : Sys T) : Sys T :=
  match s.handle with
  | none => s
  | some h => { s with snaps := h :: s.snaps }

/-- `push_back` (src/cow.h:83-102): if `use_count() == 1` append in place;
otherwise copy everything into a fresh storage, append, and swap the handle.
A null handle (`use_count() == 0`) also takes the copy branch, which
allocates a fresh one-element storage. -/
def pushBackS (s : Sys T) (t : T) : Sys T :=
  match s.handle with
  | some h =>
    if s.snaps.count h = 0 then -- use_count() == 1: nobody holds a read-only copy
      { s with heap := updH s.heap h (s.heap h ++ [t]) }
    else -- somebody has a read-only copy: copy everything, then push_back
      alloc s (s.heap h ++ [t])
  | none => alloc s [t]

/-- `push_front` (src/cow.h:58-81): same policy, inserting at the front. -/
def pushFrontS (s : Sys T) (t : T) : Sys T :=
  match s.handle with
  | some h =>
    if s.snaps.count h = 0 then
      { s with heap := updH s.heap h (t :: s.heap h) }
    else -- push_back(t) then insert the old elements at the end
      alloc s (t :: s.heap h)
  | none => alloc s [t]

/-- `emplace_back` (src/cow.h:104-124): identical control flow to `push_back`;
the element is the one constructed from the forwarded arguments. -/
def emplaceBackS (s : Sys T) (t : T) : Sys T :=
  pushBackS s t

/-- `clear` (src/cow.h:40-44): unconditionally reset the handle to null. -/
def clearS (s : Sys T) : Sys T :=
  { s with handle := none }

/-- The erase loop of `remove`'s sole-holder branch (src/cow.h:138-147):
walk the storage, erasing each matching element and counting erasures.
The same scan shape also describes the shared branch's rebuild loop
(src/cow.h:154-160), which keeps non-matching elements and counts matches. -/
def removeLoop (p : T → Bool) : List T → List T × Nat
  | [] => ([], 0)
  | x :: xs =>
    let r := removeLoop p xs
    if p x then (r.1, r.2 + 1) else (x :: r.1, r.2)

/-- `remove(predicate)` (src/cow.h:126-172), returning the new state and the
removed count. Sole holder: erase matches in place. Shared: rebuild a
filtered storage; if nothing changed return without swapping; if the result
is empty reset the handle to null; otherwise swap in the new storage. -/
def removeS (s : Sys T) (p : T → Bool) : Sys T × Nat :=
  match s.handle with
  | none => (s, 0)
  | some h =>
    let l := s.heap h
    if l.isEmpty then (s, 0)
    else
      let r := removeLoop p l
      if s.snaps.count h = 0 then -- use_count() == 1: erase in place
        ({ s with heap := updH s.heap h r.1 }, r.2)
      else -- rebuild into a fresh storage
        if l.length = r.1.length then (s, r.2) -- otherwise nothing changed
        else if r.1.isEmpty then ({ s with handle := none }, r.2)
        else (alloc s r.1, r.2)

/-- `removeAt` (src/cow.h:445-468) on the storage at handle `h` with contents
`l`, removing index `i` (`i = l.length` encodes `it == end()`). Single
element: reset the handle. Sole holder: erase in place. Shared: copy the
prefix and suffix around `i` into a fresh storage and swap. -/
def removeAtS (s : Sys T) (h : Nat) (l : List T) (i : Nat) : Sys T × Bool :=
  if i = l.length then (s, false)
  else if l.length = 1 then ({ s with handle := none }, true)
  else if s.snaps.count h = 0 then
    ({ s with heap := updH s.heap h (l.take i ++ l.drop (i + 1)) }, true)
  else
    (alloc s (l.take i ++ l.drop (i + 1)), true)

/-- `removeFirst` (src/cow.h:174-185): forward `find_if`, then `removeAt`.
`List.findIdx` returns `l.length` when nothing matches, exactly as
`std::find_if` returns `end()`. -/
def removeFirstS (s : Sys T) (p : T → Bool) : Sys T × Bool :=
  match s.handle with
  | none => (s, false)
  | some h =>
    let l := s.heap h
    if l.isEmpty then (s, false)
    else removeAtS s h l (l.findIdx p)

/-- `removeLast` (src/cow.h:187-200): reverse `find_if`; a reverse position
`j` corresponds to forward index `l.length - 1 - j` (`--rit.base()`). -/
def removeLastS (s : Sys T) (p : T → Bool) : Sys T × Bool :=
  match s.handle with
  | none => (s, false)
  | some h =>
    let l := s.heap h
    if l.isEmpty then (s, false)
    else
      let j := l.reverse.findIdx p
      if j = l.length then (s, false)
      else removeAtS s h l (l.length - 1 - j)

/-- The mutating operations of the container. -/
inductive Op (T : Type) where
  | pushFront (t : T)
  | pushBack (t : T)
  | emplaceBack (t : T)
  | remove (p : T → Bool)
  | removeFirst (p : T → Bool)
  | removeLast (p : T → Bool)
  | clear

/-- Apply one mutating operation (discarding the returned count/flag). -/
def applyOp (s : Sys T) : Op T → Sys T
  | .pushFront t => pushFrontS s t
  | .pushBack t => pushBackS s t
  | .emplaceBack t => emplaceBackS s t
  | .remove p => (removeS s p).1
  | .removeFirst p => (removeFirstS s p).1
  | .removeLast p => (removeLastS s p).1
  | .clear => clearS s

/-- Apply a sequence of mutating operations, oldest first. -/
def applyOps (s : Sys T) : List (Op T) → Sys T
  | [] => s
  | op :: ops => applyOps (applyOp s op) ops

/-- Well-formedness: every address held by a snapshot or by the container's
handle has already been allocated (is below `next`). -/
def wf (s : Sys T) : Prop :=
  (∀ a ∈ s.snaps, a < s.next) ∧ (∀ h, s.handle = some h → h < s.next)

theorem updH_ne {f : Nat → List T} {a b : Nat} {v : List T} (h : b ≠ a) :
    updH f a v b = f b := by
  simp [updH, h]

theorem alloc_heap_frame {s : Sys T} {l : List T} {a : Nat} (ha : a < s.next) :
    (alloc s l).heap a = s.heap a :=
  updH_ne (Nat.ne_of_lt ha)

theorem count_zero_ne {a h : Nat} {sn : List Nat} (hc : sn.count h = 0)
    (ha : a ∈ sn) : a ≠ h := by
  intro he
  subst he
  exact List.count_eq_zero.mp hc ha

theorem pushBackS_heap_frame (s : Sys T) (t : T) (a : Nat) (hwf : wf s)
    (ha : a ∈ s.snaps) : (pushBackS s t).heap a = s.heap a := by
  unfold pushBackS
  cases hh : s.handle with
  | none => exact alloc_heap_frame (hwf.1 a ha)
  | some h =>
    by_cases hc : s.snaps.count h = 0
    · simp only [hc, if_pos rfl]
      exact updH_ne (count_zero_ne hc ha)
    · simp only [if_neg hc]
      exact alloc_heap_frame (hwf.1 a ha)

theorem pushFrontS_heap_frame (s : Sys T) (t : T) (a : Nat) (hwf : wf s)
    (ha : a ∈ s.snaps) : (pushFrontS s t).heap a = s.heap a := by
  unfold pushFrontS
  cases hh : s.handle with
  | none => exact alloc_heap_frame (hwf.1 a ha)
  | some h =>
    by_cases hc : s.snaps.count h = 0
    · simp only [hc, if_pos rfl]
      exact updH_ne (count_zero_ne hc ha)
    · simp only [if_neg hc]
      exact alloc_heap_frame (hwf.1 a ha)

theorem removeS_heap_frame (s : Sys T) (p : T → Bool) (a : Nat) (hwf : wf s)
    (ha : a ∈ s.snaps) : (removeS s p).1.heap a = s.heap a := by
  unfold removeS
  cases hh : s.handle with
  | none => rfl
  | some h =>
    by_cases he : (s.heap h).isEmpty
    · simp [he]
    · simp only [he, Bool.false_eq_true, if_false]
      by_cases hc : s.snaps.count h = 0
      · simp only [hc, if_pos rfl]
        exact updH_ne (count_zero_ne hc ha)
      · simp only [if_neg hc]
        by_cases hl : (s.heap h).length = (removeLoop p (s.heap h)).1.length
        · simp [hl]
        · simp only [if_neg hl]
          by_cases hz : (removeLoop p (s.heap h)).1.isEmpty
          · simp [hz]
          · simp only [hz, Bool.false_eq_true, if_false]
            exact alloc_heap_frame (hwf.1 a ha)

theorem removeAtS_heap_frame (s : Sys T) (h : Nat) (l : List T) (i : Nat)
    (a : Nat) (hwf : wf s) (ha : a ∈ s.snaps) (hc : s.snaps.count h = 0 → a ≠ h) :
    (removeAtS s h l i).1.heap a = s.heap a := by
  unfold removeAtS
  by_cases h1 : i = l.length
  · simp [h1]
  · simp only [if_neg h1]
    by_cases h2 : l.length = 1
    · simp [h2]
    · simp only [if_neg h2]
      by_cases h3 : s.snaps.count h = 0
      · simp only [h3, if_pos rfl]
        exact updH_ne (hc h3)
      · simp only [if_neg h3]
        exact alloc_heap_frame (hwf.1 a ha)

theorem removeFirstS_heap_frame (s : Sys T) (p : T → Bool) (a : Nat)
    (hwf : wf s) (ha : a ∈ s.snaps) :
    (removeFirstS s p).1.heap a = s.heap a := by
  unfold removeFirstS
  cases hh : s.handle with
  | none => rfl
  | some h =>
    by_cases he : (s.heap h).isEmpty
    · simp [he]
    · simp only [he, Bool.false_eq_true, if_false]
      exact removeAtS_heap_frame s h _ _ a hwf ha (fun hc => count_zero_ne hc ha)

theorem removeLastS_heap_frame (s : Sys T) (p : T → Bool) (a : Nat)
    (hwf : wf s) (ha : a ∈ s.snaps) :
    (removeLastS s p).1.heap a = s.heap a := by
  unfold removeLastS
  cases hh : s.handle with
  | none => rfl
  | some h =>
    by_cases he : (s.heap h).isEmpty
    · simp [he]
    · simp only [he, Bool.false_eq_true, if_false]
      by_cases hj : (s.heap h).reverse.findIdx p = (s.heap h).length
      · simp [hj]
      · simp only [if_neg hj]
        exact removeAtS_heap_frame s h _ _ a hwf ha (fun hc => count_zero_ne hc ha)

theorem applyOp_heap_frame (s : Sys T) (op : Op T) (a : Nat) (hwf : wf s)
    (ha : a ∈ s.snaps) : (applyOp s op).heap a = s.heap a := by
  cases op with
  | pushFront t => exact pushFrontS_heap_frame s t a hwf ha
  | pushBack t => exact pushBackS_heap_frame s t a hwf ha
  | emplaceBack t => exact pushBackS_heap_frame s t a hwf ha
  | remove p => exact removeS_heap_frame s p a hwf ha
  | removeFirst p => exact removeFirstS_heap_frame s p a hwf ha
  | removeLast p => exact removeLastS_heap_frame s p a hwf ha
  | clear => rfl

theorem wf_alloc {s : Sys T} {l : List T} (hwf : wf s) : wf (alloc s l) := by
  constructor
  · intro a ha
    simp only [alloc] at ha ⊢
    exact Nat.lt_succ_of_lt (hwf.1 a ha)
  · intro h hh
    simp only [alloc] at hh ⊢
    injection hh with e
    omega

theorem applyOp_snaps (s : Sys T) (op : Op T) : (applyOp s op).snaps = s.snaps := by
  cases op <;>
    simp only [applyOp, pushFrontS, pushBackS, emplaceBackS, removeS, removeFirstS,
      removeLastS, removeAtS, clearS, alloc] <;>
    (repeat' split) <;> rfl

theorem applyOp_wf (s : Sys T) (op : Op T) (hwf : wf s) : wf (applyOp s op) := by
  cases op <;>
    simp only [applyOp, pushFrontS, pushBackS, emplaceBackS, removeS, removeFirstS,
      removeLastS, removeAtS, clearS] <;>
    (repeat' split) <;>
    first
      | exact hwf
      | exact ⟨hwf.1, hwf.2⟩
      | exact wf_alloc hwf
      | exact ⟨hwf.1, fun h hh => nomatch hh⟩

theorem applyOps_heap_frame (s : Sys T) (a : Nat) (ops : List (Op T))
    (hwf : wf s) (ha : a ∈ s.snaps) : (applyOps s ops).heap a = s.heap a := by
  induction ops generalizing s with
  | nil => rfl
  | cons op ops ih =>
    have h1 : (applyOps (applyOp s op) ops).heap a = (applyOp s op).heap a :=
      ih (applyOp s op) (applyOp_wf s op hwf) (by rw [applyOp_snaps]; exact ha)
    exact h1.trans (applyOp_heap_frame s op a hwf ha)

/-- C1: once a snapshot (read-only view or iterator) has captured the
container's handle `h`, every subsequent sequence of mutating operations
(`push_front`, `push_back`, `emplace_back`, `remove`, `remove_first`,
`remove_last`, `clear`) on the container leaves the storage at `h` — the
length and contents the snapshot observes — unchanged: a storage with a
second holder is never mutated in place for the rest of its life. -/
theorem C1_snapshot_isolation (s : Sys T) (h : Nat) (ops : List (Op T))
    (hwf : wf s) (hh : s.handle = some h) :
    (applyOps (captureSnap s) ops).heap h = s.heap h := by
  have hcs : captureSnap s = { s with snaps := h :: s.snaps } := by
    unfold captureSnap
    rw [hh]
  rw [hcs]
  refine applyOps_heap_frame _ h ops ⟨fun a ha => ?_, hwf.2⟩ (List.mem_cons_self h _)
  rcases List.mem_cons.mp ha with he | ha'
  · rw [he]
    exact hwf.2 h hh
  · exact hwf.1 a ha'

/-- Witness for C1: a container holding `[1, 2]`, after a snapshot capture,
is pushed to, filtered and cleared; the captured storage still reads `[1, 2]`. -/
theorem C1_snapshot_isolation_witness :
    (applyOps (captureSnap ⟨updH (fun _ => []) 0 [1, 2], 1, some 0, []⟩)
      [Op.pushBack 3, Op.remove (fun x => x == 1), Op.clear]).heap 0 = [1, 2] :=
  C1_snapshot_isolation _ 0 _
    ⟨by simp, by intro h hh; injection hh with e; subst e; decide⟩ rfl

/-! ### Reference sequence semantics (spec side of the refinement claim)

The spec's "plain reference sequence": prepend, append, filter out matching,
remove the first/last match, empty. These definitions follow the spec's
words; the refinement theorems below compare them with the code model. -/

/-- Reference semantics: remove the first element matching `p`. -/
def eraseFirstRef (p : T → Bool) : List T → List T
  | [] => []
  | x :: xs => if p x then xs else x :: eraseFirstRef p xs

/-- Reference semantics: remove the last element matching `p`. -/
def eraseLastRef (p : T → Bool) (l : List T) : List T :=
  (eraseFirstRef p l.reverse).reverse

/-- Reference semantics of one operation on a plain sequence. -/
def refOp (l : List T) : Op T → List T
  | .pushFront t => t :: l
  | .pushBack t => l ++ [t]
  | .emplaceBack t => l ++ [t]
  | .remove p => l.filter (fun x => !p x)
  | .removeFirst p => eraseFirstRef p l
  | .removeLast p => eraseLastRef p l
  | .clear => []

/-- Reference semantics of a sequence of operations, oldest first. -/
def refOps (l : List T) : List (Op T) → List T
  | [] => l
  | op :: ops => refOps (refOp l op) ops

theorem removeLoop_eq (p : T → Bool) (l : List T) :
    removeLoop p l = (l.filter (fun x => !p x), l.countP p) := by
  induction l with
  | nil => rfl
  | cons x xs ih =>
    by_cases hx : p x <;>
      simp [removeLoop, ih, List.filter_cons, List.countP_cons, hx]

theorem take_drop_findIdx (p : T → Bool) (l : List T) :
    l.take (l.findIdx p) ++ l.drop (l.findIdx p + 1) = eraseFirstRef p l := by
  induction l with
  | nil => rfl
  | cons x xs ih =>
    by_cases hx : p x
    · simp [List.findIdx_cons, hx, eraseFirstRef]
    · simp [List.findIdx_cons, hx, eraseFirstRef, ih]

theorem eraseFirstRef_of_not_found (p : T → Bool) (l : List T)
    (hj : l.findIdx p = l.length) : eraseFirstRef p l = l := by
  have h := take_drop_findIdx p l
  rw [hj, List.take_length, List.drop_eq_nil_of_le (by omega),
    List.append_nil] at h
  exact h.symm

theorem eraseLastRef_eq_take_drop (p : T → Bool) (l : List T)
    (hj : l.reverse.findIdx p < l.length) :
    eraseLastRef p l =
      l.take (l.length - 1 - l.reverse.findIdx p) ++
        l.drop (l.length - 1 - l.reverse.findIdx p + 1) := by
  have h0 := take_drop_findIdx p l.reverse
  unfold eraseLastRef
  rw [← h0, List.reverse_append]
  have h1 : (l.reverse.drop (l.reverse.findIdx p + 1)).reverse
      = l.take (l.length - 1 - l.reverse.findIdx p) := by
    rw [List.reverse_drop]
    simp only [List.reverse_reverse, List.length_reverse]
    congr 1
    omega
  have h2 : (l.reverse.take (l.reverse.findIdx p)).reverse
      = l.drop (l.length - 1 - l.reverse.findIdx p + 1) := by
    rw [List.reverse_take]
    simp only [List.reverse_reverse, List.length_reverse]
    congr 1
    omega
  rw [h1, h2]

theorem contents_pushBackS (s : Sys T) (t : T) :
    contents (pushBackS s t) = contents s ++ [t] := by
  unfold pushBackS
  cases hh : s.handle with
  | none => simp [contents, hh, alloc, updH]
  | some h =>
    by_cases hc : s.snaps.count h = 0
    · simp [hc, contents, hh, updH]
    · simp [hc, contents, hh, alloc, updH]

theorem contents_pushFrontS (s : Sys T) (t : T) :
    contents (pushFrontS s t) = t :: contents s := by
  unfold pushFrontS
  cases hh : s.handle with
  | none => simp [contents, hh, alloc, updH]
  | some h =>
    by_cases hc : s.snaps.count h = 0
    · simp [hc, contents, hh, updH]
    · simp [hc, contents, hh, alloc, updH]

theorem removeS_spec (s : Sys T) (p : T → Bool) :
    contents (removeS s p).1 = (contents s).filter (fun x => !p x) ∧
      (removeS s p).2 = (contents s).countP p := by
  unfold removeS
  cases hh : s.handle with
  | none => simp [contents, hh]
  | some h =>
    by_cases he : (s.heap h).isEmpty
    · have hl : s.heap h = [] := List.isEmpty_iff.mp he
      simp [he, contents, hh, hl]
    · simp only [he, Bool.false_eq_true, if_false, removeLoop_eq]
      by_cases hc : s.snaps.count h = 0
      · simp [hc, contents, hh, updH]
      · simp only [if_neg hc]
        by_cases hlen :
            (s.heap h).length = ((s.heap h).filter (fun x => !p x)).length
        · have hfe : (s.heap h).filter (fun x => !p x) = s.heap h :=
            (List.filter_sublist _).eq_of_length hlen.symm
          simp [hlen, contents, hh, hfe]
        · simp only [if_neg hlen]
          by_cases hz : ((s.heap h).filter (fun x => !p x)).isEmpty
          · have hfz : (s.heap h).filter (fun x => !p x) = [] :=
              List.isEmpty_iff.mp hz
            simp [hz, contents, hh, hfz]
          · simp [hz, contents, hh, alloc, updH]

theorem removeAtS_contents (s : Sys T) (h : Nat) (l : List T) (i : Nat)
    (hh : s.handle = some h) (hle : i ≤ l.length) :
    contents (removeAtS s h l i).1 =
      if i = l.length then contents s
      else l.take i ++ l.drop (i + 1) := by
  unfold removeAtS
  by_cases h1 : i = l.length
  · simp [h1]
  · simp only [if_neg h1]
    by_cases h2 : l.length = 1
    · have hi : i = 0 := by omega
      subst hi
      rcases l with _ | ⟨x, xs⟩
      · simp at h2
      · have hxs : xs = [] := by
          simp only [List.length_cons] at h2
          exact List.eq_nil_of_length_eq_zero (by omega)
        subst hxs
        simp [contents]
    · simp only [if_neg h2]
      by_cases h3 : s.snaps.count h = 0
      · simp [h3, contents, hh, updH]
      · simp [h3, contents, alloc, updH]

theorem contents_removeFirstS (s : Sys T) (p : T → Bool) :
    contents (removeFirstS s p).1 = eraseFirstRef p (contents s) := by
  unfold removeFirstS
  cases hh : s.handle with
  | none => simp [contents, hh, eraseFirstRef]
  | some h =>
    by_cases he : (s.heap h).isEmpty
    · have hl : s.heap h = [] := List.isEmpty_iff.mp he
      simp [he, contents, hh, hl, eraseFirstRef]
    · simp only [he, Bool.false_eq_true, if_false]
      rw [removeAtS_contents s h _ _ hh (List.findIdx_le_length p)]
      by_cases hj : (s.heap h).findIdx p = (s.heap h).length
      · rw [if_pos hj]
        simp [contents, hh, eraseFirstRef_of_not_found p _ hj]
      · rw [if_neg hj]
        simp [contents, hh, take_drop_findIdx]

theorem contents_removeLastS (s : Sys T) (p : T → Bool) :
    contents (removeLastS s p).1 = eraseLastRef p (contents s) := by
  unfold removeLastS
  cases hh : s.handle with
  | none => simp [contents, hh, eraseLastRef, eraseFirstRef]
  | some h =>
    by_cases he : (s.heap h).isEmpty
    · have hl : s.heap h = [] := List.isEmpty_iff.mp he
      simp [he, contents, hh, hl, eraseLastRef, eraseFirstRef]
    · simp only [he, Bool.false_eq_true, if_false]
      by_cases hj : (s.heap h).reverse.findIdx p = (s.heap h).length
      · have hrj : (s.heap h).reverse.findIdx p = (s.heap h).reverse.length := by
          rw [List.length_reverse]
          exact hj
        have hrl : eraseFirstRef p (s.heap h).reverse = (s.heap h).reverse :=
          eraseFirstRef_of_not_found p _ hrj
        simp [hj, contents, hh, eraseLastRef, hrl]
      · simp only [if_neg hj]
        have hlt : (s.heap h).reverse.findIdx p < (s.heap h).length := by
          have := @List.findIdx_le_length T p (s.heap h).reverse
          rw [List.length_reverse] at this
          omega
        rw [removeAtS_contents s h _ _ hh (by omega)]
        have hne : (s.heap h).length - 1 - (s.heap h).reverse.findIdx p
            ≠ (s.heap h).length := by
          have hpos : 0 < (s.heap h).length := by
            cases hq : s.heap h with
            | nil => rw [hq] at he; simp at he
            | cons a as => simp [hq]
          omega
        rw [if_neg hne]
        simp [contents, hh, eraseLastRef_eq_take_drop p _ hlt]

theorem applyOp_contents (s : Sys T) (op : Op T) :
    contents (applyOp s op) = refOp (contents s) op := by
  cases op with
  | pushFront t => exact contents_pushFrontS s t
  | pushBack t => exact contents_pushBackS s t
  | emplaceBack t => exact contents_pushBackS s t
  | remove p => exact (removeS_spec s p).1
  | removeFirst p => exact contents_removeFirstS s p
  | removeLast p => exact contents_removeLastS s p
  | clear => simp [applyOp, clearS, contents, refOp]

/-- C2: with no snapshot, view, or sibling container outstanding, any finite
sequence of `push_front`/`push_back`/`emplace_back`/`remove`/`remove_first`/
`remove_last`/`clear` operations leaves the container with exactly the
element sequence obtained by applying the same operations (prepend, append,
filter-out-matching, remove first/last match, empty) to a plain reference
sequence. (The contents lemmas hold branch-independently, so the
no-outstanding-snapshot hypothesis records the claim's setting.) -/
theorem C2_sequential_consistency (s : Sys T) (ops : List (Op T))
    (_hs : s.snaps = []) :
    contents (applyOps s ops) = refOps (contents s) ops := by
  induction ops generalizing s with
  | nil => rfl
  | cons op ops ih =>
    show contents (applyOps (applyOp s op) ops) = refOps (refOp (contents s) op) ops
    rw [← applyOp_contents s op]
    exact ih (applyOp s op) (by rw [applyOp_snaps]; exact _hs)

/-- Witness for C2: from the empty container,
push_back 1, push_back 2, push_front 3, remove (== 3 or == 2),
emplace_back 4, remove_first (== 1), remove_last (== 4), push_back 5
produces `[5]`, matching the reference sequence. -/
theorem C2_sequential_consistency_witness :
    contents (applyOps (⟨fun _ => [], 0, none, []⟩ : Sys Nat)
      [Op.pushBack 1, Op.pushBack 2, Op.pushFront 3,
       Op.remove (fun x => x == 3 || x == 2), Op.emplaceBack 4,
       Op.removeFirst (fun x => x == 1), Op.removeLast (fun x => x == 4),
       Op.pushBack 5]) = [5] :=
  (C2_sequential_consistency _ _ rfl).trans (by decide)

/-- C3: `remove(predicate)` returns exactly the number of elements satisfying
the predicate at call time; afterward the contents are exactly the
non-matching elements in their original relative order, so no remaining
element satisfies the predicate. `removeS` covers both the sole-holder
(in-place) branch and the shared (rebuild) branch. -/
theorem C3_remove_count_filter (s : Sys T) (p : T → Bool) :
    (removeS s p).2 = (contents s).countP p ∧
      contents (removeS s p).1 = (contents s).filter (fun x => !p x) ∧
      ∀ x ∈ contents (removeS s p).1, p x = false := by
  refine ⟨(removeS_spec s p).2, (removeS_spec s p).1, fun x hx => ?_⟩
  rw [(removeS_spec s p).1] at hx
  simpa using List.of_mem_filter hx

/-- Witness for C3: removing the odd elements of `[1, 2, 3]` while a snapshot
holds the storage (shared branch) returns count 2 and leaves `[2]`. -/
theorem C3_remove_count_filter_witness :
    (removeS (⟨updH (fun _ => []) 0 [1, 2, 3], 1, some 0, [0]⟩ : Sys Nat)
        (fun x => x % 2 == 1)).2 = 2 ∧
      contents (removeS (⟨updH (fun _ => []) 0 [1, 2, 3], 1, some 0, [0]⟩ : Sys Nat)
        (fun x => x % 2 == 1)).1 = [2] := by
  have h := C3_remove_count_filter
    (⟨updH (fun _ => []) 0 [1, 2, 3], 1, some 0, [0]⟩ : Sys Nat)
    (fun x => x % 2 == 1)
  exact ⟨h.1.trans (by decide), h.2.1.trans (by decide)⟩

/-- Counterexample to C4 as stated: with the container the sole holder of a
storage holding `[1]`, `remove(fun _ => true)` takes the in-place branch
(src/cow.h:136-148), which erases every element but never resets the handle;
the container ends with zero elements yet a non-null, allocated-but-empty
storage. -/
theorem C4_counterexample :
    contents (removeS (⟨updH (fun _ => []) 0 [1], 1, some 0, []⟩ : Sys Nat)
        (fun _ => true)).1 = [] ∧
      (removeS (⟨updH (fun _ => []) 0 [1], 1, some 0, []⟩ : Sys Nat)
        (fun _ => true)).1.handle = some 0 := by
  decide

theorem take_drop_ne_nil {l : List T} {i : Nat} (hi : i < l.length)
    (h2 : l.length ≠ 1) : l.take i ++ l.drop (i + 1) ≠ [] := by
  intro hnil
  have hlen := congrArg List.length hnil
  simp only [List.length_append, List.length_take, List.length_drop,
    List.length_nil] at hlen
  omega

theorem removeFirstS_null_on_empty (s : Sys T) (p : T → Bool)
    (hcan : ∀ h, s.handle = some h → s.heap h ≠ []) :
    contents (removeFirstS s p).1 = [] → (removeFirstS s p).1.handle = none := by
  unfold removeFirstS
  cases hh : s.handle with
  | none => intro _; exact hh
  | some h =>
    have hne : s.heap h ≠ [] := hcan h hh
    by_cases he : (s.heap h).isEmpty
    · exact absurd (List.isEmpty_iff.mp he) hne
    · simp only [he, Bool.false_eq_true, if_false]
      unfold removeAtS
      by_cases h1 : (s.heap h).findIdx p = (s.heap h).length
      · rw [if_pos h1]
        intro hc
        exact absurd (by simpa [contents, hh] using hc) hne
      · rw [if_neg h1]
        by_cases h2 : (s.heap h).length = 1
        · rw [if_pos h2]
          intro _
          rfl
        · rw [if_neg h2]
          have hi : (s.heap h).findIdx p < (s.heap h).length :=
            lt_of_le_of_ne (List.findIdx_le_length p) h1
          by_cases h3 : s.snaps.count h = 0
          · rw [if_pos h3]
            intro hc
            exact absurd (by simpa [contents, hh, updH] using hc)
              (take_drop_ne_nil hi h2)
          · rw [if_neg h3]
            intro hc
            exact absurd (by simpa [contents, alloc, updH] using hc)
              (take_drop_ne_nil hi h2)

theorem removeLastS_null_on_empty (s : Sys T) (p : T → Bool)
    (hcan : ∀ h, s.handle = some h → s.heap h ≠ []) :
    contents (removeLastS s p).1 = [] → (removeLastS s p).1.handle = none := by
  unfold removeLastS
  cases hh : s.handle with
  | none => intro _; exact hh
  | some h =>
    have hne : s.heap h ≠ [] := hcan h hh
    by_cases he : (s.heap h).isEmpty
    · exact absurd (List.isEmpty_iff.mp he) hne
    · simp only [he, Bool.false_eq_true, if_false]
      by_cases hj : (s.heap h).reverse.findIdx p = (s.heap h).length
      · rw [if_pos hj]
        intro hc
        exact absurd (by simpa [contents, hh] using hc) hne
      · rw [if_neg hj]
        unfold removeAtS
        have hpos : 0 < (s.heap h).length := by
          cases hq : s.heap h with
          | nil => exact absurd hq hne
          | cons a as => simp [hq]
        have hi : (s.heap h).length - 1 - (s.heap h).reverse.findIdx p
            < (s.heap h).length := by omega
        rw [if_neg (Nat.ne_of_lt hi)]
        by_cases h2 : (s.heap h).length = 1
        · rw [if_pos h2]
          intro _
          rfl
        · rw [if_neg h2]
          by_cases h3 : s.snaps.count h = 0
          · rw [if_pos h3]
            intro hc
            exact absurd (by simpa [contents, hh, updH] using hc)
              (take_drop_ne_nil hi h2)
          · rw [if_neg h3]
            intro hc
            exact absurd (by simpa [contents, alloc, updH] using hc)
              (take_drop_ne_nil hi h2)

theorem removeS_null_on_empty_shared (s : Sys T) (p : T → Bool)
    (hcan : ∀ h, s.handle = some h → s.heap h ≠ []) :
    ∀ h, s.handle = some h → s.snaps.count h ≠ 0 →
      contents (removeS s p).1 = [] → (removeS s p).1.handle = none := by
  intro h hh hsh
  unfold removeS
  cases hq : s.handle with
  | none => rw [hq] at hh; cases hh
  | some h' =>
    rw [hq] at hh
    injection hh with e
    rw [← e] at hsh
    have hne : s.heap h' ≠ [] := hcan h' hq
    by_cases he : (s.heap h').isEmpty
    · exact absurd (List.isEmpty_iff.mp he) hne
    · simp only [he, Bool.false_eq_true, if_false, removeLoop_eq]
      rw [if_neg hsh]
      by_cases hlen :
          (s.heap h').length = ((s.heap h').filter (fun x => !p x)).length
      · rw [if_pos hlen]
        intro hc
        exact absurd (by simpa [contents, hq] using hc) hne
      · rw [if_neg hlen]
        by_cases hz : ((s.heap h').filter (fun x => !p x)).isEmpty
        · rw [if_pos hz]
          intro _
          rfl
        · rw [if_neg hz]
          intro hc
          have hfz : (s.heap h').filter (fun x => !p x) = [] := by
            simpa [contents, alloc, updH] using hc
          exact absurd hfz (by simpa using hz)

/-- C4 amended: the removal-empties-the-storage case resets the handle to
null for `remove_first` and `remove_last` in both branches, and for
`remove` in the shared branch; the sole-holder branch of `remove` instead
erases in place and can leave an allocated-but-empty storage (see the
counterexample). The hypothesis is the canonical-empty invariant at entry. -/
theorem C4_null_on_empty_amended (s : Sys T) (p : T → Bool)
    (hcan : ∀ h, s.handle = some h → s.heap h ≠ []) :
    (contents (removeFirstS s p).1 = [] → (removeFirstS s p).1.handle = none) ∧
      (contents (removeLastS s p).1 = [] → (removeLastS s p).1.handle = none) ∧
      (∀ h, s.handle = some h → s.snaps.count h ≠ 0 →
        contents (removeS s p).1 = [] → (removeS s p).1.handle = none) :=
  ⟨removeFirstS_null_on_empty s p hcan, removeLastS_null_on_empty s p hcan,
    removeS_null_on_empty_shared s p hcan⟩

/-- Witness for the amended C4: a shared single-element container emptied by
`remove_first` and by `remove` ends with a null handle. -/
theorem C4_null_on_empty_amended_witness :
    (removeFirstS (⟨updH (fun _ => []) 0 [7], 1, some 0, [0]⟩ : Sys Nat)
        (fun _ => true)).1.handle = none ∧
      (removeS (⟨updH (fun _ => []) 0 [7], 1, some 0, [0]⟩ : Sys Nat)
        (fun _ => true)).1.handle = none := by
  have h := C4_null_on_empty_amended
    (⟨updH (fun _ => []) 0 [7], 1, some 0, [0]⟩ : Sys Nat) (fun _ => true)
    (by intro h hh; injection hh with e; subst e; decide)
  exact ⟨h.1 (by decide), h.2.2 0 rfl (by decide) (by decide)⟩

/-! ### `exists` / `find_first` / `find_last` (src/cow.h:202-245)

Each captures the handle under the lock (`storage_copy = copy()`) and then
tests `if (!storage_copy || _storage->empty())` — dereferencing the **live**
`_storage` field outside the lock, not the captured copy. The functions are
therefore modelled on two arguments: the captured storage and the value the
live field has when the emptiness test runs. Dereferencing a null live field
is a null-pointer dereference, modelled as `none`. -/

/-- `exists` (src/cow.h:202-215): short-circuit — a null captured copy
returns `false` without touching the live field; otherwise the emptiness
test reads the live field, and only then is the captured copy scanned. -/
def existsImpl (captured live : Option (List T)) (p : T → Bool) : Option Bool :=
  match captured with
  | none => some false
  | some c =>
    match live with
    | none => none
    | some lv => if lv.isEmpty then some false else some (c.any p)

/-- `find_first` (src/cow.h:217-230): same capture-then-test shape, returning
the first match of the captured storage or the default value. -/
def find_firstImpl (captured live : Option (List T)) (p : T → Bool) (d : T) :
    Option T :=
  match captured with
  | none => some d
  | some c =>
    match live with
    | none => none
    | some lv => if lv.isEmpty then some d else some ((c.find? p).getD d)

/-- `find_last` (src/cow.h:232-245): reverse scan of the captured storage. -/
def find_lastImpl (captured live : Option (List T)) (p : T → Bool) (d : T) :
    Option T :=
  match captured with
  | none => some d
  | some c =>
    match live with
    | none => none
    | some lv => if lv.isEmpty then some d else some ((c.reverse.find? p).getD d)

/-- C5 fails on the code: for the fixed non-null captured snapshot `[1]`,
the result of `exists`/`find_first`/`find_last` is **not** a function of
the captured snapshot alone. With live field `[1]` the scan runs; with live
field `[]` (as after a concurrent `clear()` followed by a push cycle) the
live emptiness test short-circuits to the not-found answer; with live field
null (immediately after a concurrent `clear()`) the live field is
dereferenced as a null pointer. The emptiness test reads `_storage`, not
`storage_copy`. -/
theorem C5_live_field_dereference :
    existsImpl (some [1]) (some [1]) (fun x => x == 1) = some true ∧
      existsImpl (some [1]) (some []) (fun x => x == 1) = some false ∧
      existsImpl (some [1]) none (fun x => x == 1) = none ∧
      find_firstImpl (some [1]) (some [1]) (fun x => x == 1) 0 = some 1 ∧
      find_firstImpl (some [1]) (some []) (fun x => x == 1) 0 = some 0 ∧
      find_firstImpl (some [1]) none (fun x => x == 1) 0 = none ∧
      find_lastImpl (some [1]) (some [1]) (fun x => x == 1) 0 = some 1 ∧
      find_lastImpl (some [1]) (some []) (fun x => x == 1) 0 = some 0 ∧
      find_lastImpl (some [1]) none (fun x => x == 1) 0 = none := by
  decide

/-! ### Shared-branch mutation with failing steps (strong exception safety)

A failing predicate is modelled as `T → Option Bool` and a failing element
copy as `T → Option T` (`none` = the call throws). In the shared branch the
only writes to the container's fields are the final handle assignments,
which the source places after the new storage is fully built; every earlier
step touches only the local `newStorage`. The models return the container
state alongside `none` when the operation throws. -/

/-- The shared-branch rebuild scan of `remove` with a fallible predicate:
result list, removed count, and whether the scan completed. On a predicate
throw the scan aborts with only the local new storage touched. -/
def buildFiltered (p : T → Option Bool) : List T → Option (List T × Nat)
  | [] => some ([], 0)
  | x :: xs =>
    match p x with
    | none => none
    | some true => (buildFiltered p xs).map (fun r => (r.1, r.2 + 1))
    | some false => (buildFiltered p xs).map (fun r => (x :: r.1, r.2))

/-- Copy every element with a fallible copy constructor
(`newStorage->insert(newStorage->end(), _storage->begin(), _storage->end())`). -/
def copyAll (cp : T → Option T) : List T → Option (List T)
  | [] => some []
  | x :: xs =>
    match cp x with
    | none => none
    | some y => (copyAll cp xs).map (fun l => y :: l)

/-- The in-place erase loop of `remove` with a fallible predicate: on a
throw the elements already erased stay erased and the rest of the storage
is kept (weak guarantee). Returns the storage, the count so far, and
whether the scan completed. -/
def eraseLoopE (p : T → Option Bool) : List T → List T × Nat × Bool
  | [] => ([], 0, true)
  | x :: xs =>
    match p x with
    | none => (x :: xs, 0, false)
    | some true =>
      match eraseLoopE p xs with
      | (l, c, ok) => (l, c + 1, ok)
    | some false =>
      match eraseLoopE p xs with
      | (l, c, ok) => (x :: l, c, ok)

/-- `remove` (src/cow.h:126-172) with a fallible predicate. The in-place
branch erases as it scans, so a throw leaves the partially-erased storage;
the shared branch assigns `_storage` only after the rebuild succeeds. -/
def removeE (s : Sys T) (p : T → Option Bool) : Sys T × Option Nat :=
  match s.handle with
  | none => (s, some 0)
  | some h =>
    let l := s.heap h
    if l.isEmpty then (s, some 0)
    else if s.snaps.count h = 0 then
      match eraseLoopE p l with
      | (l', c, ok) =>
        ({ s with heap := updH s.heap h l' }, if ok then some c else none)
    else
      match buildFiltered p l with
      | none => (s, none)
      | some r =>
        if l.length = r.1.length then (s, some r.2)
        else if r.1.isEmpty then ({ s with handle := none }, some r.2)
        else (alloc s r.1, some r.2)

/-- `push_back` (src/cow.h:83-102) with a fallible element copy: the shared
branch copies every old element into the fresh storage before appending and
swapping; a copy throw propagates before `_storage` is reassigned. -/
def pushBackE (s : Sys T) (cp : T → Option T) (t : T) : Sys T × Option Unit :=
  match s.handle with
  | some h =>
    if s.snaps.count h = 0 then
      ({ s with heap := updH s.heap h (s.heap h ++ [t]) }, some ())
    else
      match copyAll cp (s.heap h) with
      | none => (s, none)
      | some l => (alloc s (l ++ [t]), some ())
  | none => (alloc s [t], some ())

/-- C6: in the shared-storage (copy-and-swap) branch, if the predicate
(`remove`) or an element copy (`push_back`) fails before the new storage is
fully built, the failure propagates (`none`) and the container — handle and
heap, hence length and contents — is exactly its pre-call value. -/
theorem C6_shared_branch_strong_exception_safety (s : Sys T) (h : Nat)
    (p : T → Option Bool) (cp : T → Option T) (t : T)
    (hh : s.handle = some h) (hsh : s.snaps.count h ≠ 0) :
    ((removeE s p).2 = none → (removeE s p).1 = s) ∧
      ((pushBackE s cp t).2 = none → (pushBackE s cp t).1 = s) := by
  constructor
  · unfold removeE
    rw [hh]
    by_cases he : (s.heap h).isEmpty
    · simp [he]
    · simp only [he, Bool.false_eq_true, if_false, if_neg hsh]
      cases hb : buildFiltered p (s.heap h) with
      | none => intro _; rfl
      | some r =>
        by_cases hlen : (s.heap h).length = r.1.length
        · simp [hlen]
        · simp only [if_neg hlen]
          by_cases hz : r.1.isEmpty
          · simp [hz]
          · simp [hz]
  · unfold pushBackE
    rw [hh]
    simp only [if_neg hsh]
    cases hb : copyAll cp (s.heap h) with
    | none => intro _; rfl
    | some l => simp

/-- Witness for C6: a shared container `[1, 2]` whose predicate throws on 2
and whose element copy always throws is left exactly in its pre-call state. -/
theorem C6_shared_branch_strong_exception_safety_witness :
    (removeE (⟨updH (fun _ => []) 0 [1, 2], 1, some 0, [0]⟩ : Sys Nat)
        (fun x => if x == 2 then none else some false)).1
      = (⟨updH (fun _ => []) 0 [1, 2], 1, some 0, [0]⟩ : Sys Nat) ∧
      (pushBackE (⟨updH (fun _ => []) 0 [1, 2], 1, some 0, [0]⟩ : Sys Nat)
          (fun _ => none) 9).1
        = (⟨updH (fun _ => []) 0 [1, 2], 1, some 0, [0]⟩ : Sys Nat) := by
  have h := C6_shared_branch_strong_exception_safety
    (⟨updH (fun _ => []) 0 [1, 2], 1, some 0, [0]⟩ : Sys Nat) 0
    (fun x => if x == 2 then none else some false) (fun _ => none) 9
    rfl (by decide)
  exact ⟨h.1 (by decide), h.2 (by decide)⟩

/-! ### Snapshot iterator (src/cow.h:247-335)

The iterator is either default-constructed (`_storage` null — the sentinel
returned by `end()`) or bound to a captured storage with the cursor `_it`
and the captured `_end`, modelled as positions into the captured list. -/

/-- A snapshot iterator. -/
inductive Iter (T : Type) where
  | sentinel : Iter T
  | bound : List T → Nat → Nat → Iter T

/-- Whether the iterator holds a captured storage (`_storage` non-null). -/
def Iter.isBound : Iter T → Bool
  | .sentinel => false
  | .bound _ _ _ => true

/-- `begin()` (src/cow.h:326-330): a non-null handle is captured into a
bound iterator over `[begin, end)`; a null handle yields `iterator()`,
the sentinel. -/
def beginIter (s : Sys T) : Iter T :=
  match s.handle with
  | some h => .bound (s.heap h) 0 (s.heap h).length
  | none => .sentinel

/-- `end()` (src/cow.h:332-335): the default-constructed sentinel. -/
def endIter : Iter T := .sentinel

/-- `operator==` (src/cow.h:296-312), translated case by case: a sentinel
on the left checks `right._end == right._it`; a bound iterator against a
sentinel checks `_it == _end`; two bound iterators compare cursors. -/
def iterEq : Iter T → Iter T → Bool
  | .sentinel, .sentinel => true
  | .sentinel, .bound _ i e => e == i
  | .bound _ i e, .sentinel => i == e
  | .bound _ i _, .bound _ j _ => i == j

/-- `operator!=` (src/cow.h:314-317): the negation of `operator==`. -/
def iterNe (a b : Iter T) : Bool :=
  !iterEq a b

/-- `++_it` / `_it++` cursor advance. Advancing the sentinel's cursor is
undefined behavior in the source; the model leaves it fixed, and every
theorem below concerns bound iterators only. -/
def Iter.inc : Iter T → Iter T
  | .sentinel => .sentinel
  | .bound l i e => .bound l (i + 1) e

/-- `--_it` / `_it--` cursor retreat (same caveat as `Iter.inc`; the
theorems additionally require a positive cursor, where `Nat` subtraction
agrees with the pointer arithmetic of the source). -/
def Iter.dec : Iter T → Iter T
  | .sentinel => .sentinel
  | .bound l i e => .bound l (i - 1) e

/-- `operator++(int)` (src/cow.h:278-282): the body is `_it++; return *this;`
so the returned value is a copy of the **already advanced** iterator, not of
the pre-increment state. Returns (new state, returned value). -/
def postfixInc (it : Iter T) : Iter T × Iter T :=
  (it.inc, it.inc)

/-- `operator--(int)` (src/cow.h:290-294): `_it--; return *this;`. -/
def postfixDec (it : Iter T) : Iter T × Iter T :=
  (it.dec, it.dec)

/-- Counterexample to C7 as stated: `begin()` on a container whose handle is
null (an empty container) returns `iterator()` — the sentinel — not a bound
iterator (src/cow.h:329 takes the null branch). -/
theorem C7_counterexample :
    (beginIter (⟨fun _ => [], 0, none, []⟩ : Sys Nat)).isBound = false := by
  decide

/-- C7 amended: `begin()` on a container with a **non-null** handle yields a
bound iterator holding the captured storage, cursor position 0 and captured
end position = length; on a null handle it yields the sentinel; `end()`
(and default construction) yield the sentinel. -/
theorem C7_begin_end_amended (s : Sys T) :
    (∀ h, s.handle = some h →
        beginIter s = Iter.bound (s.heap h) 0 (s.heap h).length) ∧
      (s.handle = none → beginIter s = Iter.sentinel) ∧
      (endIter : Iter T) = Iter.sentinel := by
  refine ⟨fun h hh => ?_, fun hh => ?_, rfl⟩ <;> simp [beginIter, hh]

/-- Witness for the amended C7: `begin()` of a one-element container is
bound at position 0 with end position 1; `begin()` of the empty container
is the sentinel. -/
theorem C7_begin_end_amended_witness :
    beginIter (⟨updH (fun _ => []) 0 [5], 1, some 0, []⟩ : Sys Nat)
        = Iter.bound [5] 0 1 ∧
      beginIter (⟨fun _ => [], 0, none, []⟩ : Sys Nat) = Iter.sentinel :=
  ⟨(C7_begin_end_amended (⟨updH (fun _ => []) 0 [5], 1, some 0, []⟩ : Sys Nat)).1
      0 rfl,
    (C7_begin_end_amended (⟨fun _ => [], 0, none, []⟩ : Sys Nat)).2.1 rfl⟩

/-- C8: two sentinels compare equal; a bound iterator compares equal to a
sentinel — on either side — exactly when its cursor equals its captured end
position; two bound iterators compare equal exactly when their cursor
positions are equal; and `operator!=` is the exact negation of
`operator==`. -/
theorem C8_iterator_equality (l m : List T) (i e j f : Nat) :
    iterEq (Iter.sentinel : Iter T) Iter.sentinel = true ∧
      (iterEq (Iter.bound l i e) Iter.sentinel = true ↔ i = e) ∧
      (iterEq (Iter.sentinel : Iter T) (Iter.bound l i e) = true ↔ i = e) ∧
      (iterEq (Iter.bound l i e) (Iter.bound m j f) = true ↔ i = j) ∧
      ∀ a b : Iter T, iterNe a b = !iterEq a b := by
  refine ⟨rfl, ?_, ?_, ?_, fun a b => rfl⟩
  · show (i == e) = true ↔ i = e
    exact beq_iff_eq
  · show (e == i) = true ↔ i = e
    rw [beq_iff_eq]
    exact eq_comm
  · show (i == j) = true ↔ i = j
    exact beq_iff_eq

/-- C10: postfix increment on a bound iterator not at its end position
advances the iterator and returns the already-advanced iterator itself: the
returned value is the new state (and compares equal to it), and does **not**
compare equal to the iterator's previous position — unlike the standard
postfix contract. Symmetrically for postfix decrement at a positive cursor. -/
theorem C10_postfix_returns_advanced (l : List T) (i e : Nat) (_hne : i ≠ e) :
    (postfixInc (Iter.bound l i e)).2 = (postfixInc (Iter.bound l i e)).1 ∧
      iterEq (postfixInc (Iter.bound l i e)).2 (postfixInc (Iter.bound l i e)).1
        = true ∧
      iterEq (postfixInc (Iter.bound l i e)).2 (Iter.bound l i e) = false ∧
      (0 < i →
        (postfixDec (Iter.bound l i e)).2 = (postfixDec (Iter.bound l i e)).1 ∧
          iterEq (postfixDec (Iter.bound l i e)).2 (Iter.bound l i e) = false) := by
  refine ⟨rfl, ?_, ?_, fun hi => ⟨rfl, ?_⟩⟩
  · simp [postfixInc, Iter.inc, iterEq]
  · simp only [postfixInc, Iter.inc, iterEq]
    simp only [beq_eq_false_iff_ne, ne_eq]
    omega
  · simp only [postfixDec, Iter.dec, iterEq]
    simp only [beq_eq_false_iff_ne, ne_eq]
    omega

/-- Witness for C10: on the bound iterator over `[1, 2]` at position 0,
`i++` returns the iterator at position 1 — equal to the post-call state and
unequal to the pre-call position; `i--` at position 1 behaves symmetrically. -/
theorem C10_postfix_returns_advanced_witness :
    (postfixInc (Iter.bound [1, 2] 0 2)).2 = (postfixInc (Iter.bound [1, 2] 0 2)).1 ∧
      iterEq (postfixInc (Iter.bound ([1, 2] : List Nat) 0 2)).2 (Iter.bound [1, 2] 0 2)
        = false ∧
      iterEq (postfixDec (Iter.bound ([1, 2] : List Nat) 1 2)).2 (Iter.bound [1, 2] 1 2)
        = false := by
  have h0 := C10_postfix_returns_advanced ([1, 2] : List Nat) 0 2 (by decide)
  have h1 := C10_postfix_returns_advanced ([1, 2] : List Nat) 1 2 (by decide)
  exact ⟨h0.1, h0.2.2.1, (h1.2.2.2 (by decide)).2⟩

/-! ### Read-only view (src/cow.h:337-422) -/

/-- The static canonical shared empty storage `_empty_storage`
(src/cow.h:475-476). -/
def emptyStorage : List T := []

/-- A read-only view: its `_storage` field is a nullable captured handle.
The contents are inlined, which is sound because a captured storage is
never mutated afterwards (C1). -/
structure ROView (T : Type) where
  storage : Option (List T)

/-- `assign` (src/cow.h:408-411):
`_storage = !storage ? _empty_storage : storage;` — a null source pointer is
replaced by the canonical empty storage, so the view is never itself null. -/
def roAssign (st : Option (List T)) : ROView T :=
  match st with
  | none => ⟨some emptyStorage⟩
  | some l => ⟨some l⟩

/-- `read_only_copy()` (src/cow.h:418-422): capture the handle under the
lock and wrap it in a view. -/
def readOnlyCopy (s : Sys T) : ROView T :=
  roAssign (s.handle.map s.heap)

/-- `empty()` (src/cow.h:360-363), dereferencing the view's storage
(`none` would be a null dereference). -/
def ROView.isEmptyV (v : ROView T) : Option Bool :=
  v.storage.map List.isEmpty

/-- `size()` (src/cow.h:365-368). -/
def ROView.size (v : ROView T) : Option Nat :=
  v.storage.map List.length

/-- `at(pos)` (src/cow.h:370-373): `std::vector::at` checks the bound and
raises `std::out_of_range` when `pos >= size()`; modelled as `none`. -/
def ROView.atIdx (v : ROView T) (i : Nat) : Option T :=
  v.storage.bind (fun l => l.get? i)

theorem readOnlyCopy_storage (s : Sys T) :
    (readOnlyCopy s).storage = some (contents s) := by
  unfold readOnlyCopy roAssign contents
  cases hh : s.handle <;> simp [emptyStorage]

/-- C9: `read_only_copy()` on a container with a null handle yields a view
that is itself non-null, of size 0 and empty; and on any view produced by
`read_only_copy()`, `at(i)` raises out-of-range exactly when `i ≥ size`,
and otherwise returns the element at index `i` of the captured contents. -/
theorem C9_read_only_copy_empty_at (s : Sys T) (i : Nat) :
    (s.handle = none →
        (readOnlyCopy s).storage.isSome = true ∧
          (readOnlyCopy s).size = some 0 ∧
          (readOnlyCopy s).isEmptyV = some true) ∧
      ((readOnlyCopy s).atIdx i = none ↔ (contents s).length ≤ i) ∧
      (readOnlyCopy s).atIdx i = (contents s).get? i := by
  refine ⟨fun hh => ?_, ?_, ?_⟩
  · have hc : contents s = [] := by simp [contents, hh]
    simp [readOnlyCopy_storage, ROView.size, ROView.isEmptyV, hc]
  · simp [ROView.atIdx, readOnlyCopy_storage, List.get?_eq_none]
  · simp [ROView.atIdx, readOnlyCopy_storage]

/-- Witness for C9: the empty container's view is non-null, empty of size 0,
and `at(0)` is out of range; on a two-element container's view, `at(1)`
returns the element and `at(2)` is out of range. -/
theorem C9_read_only_copy_empty_at_witness :
    (readOnlyCopy (⟨fun _ => [], 0, none, []⟩ : Sys Nat)).storage.isSome = true ∧
      (readOnlyCopy (⟨fun _ => [], 0, none, []⟩ : Sys Nat)).size = some 0 ∧
      (readOnlyCopy (⟨fun _ => [], 0, none, []⟩ : Sys Nat)).isEmptyV = some true ∧
      (readOnlyCopy (⟨fun _ => [], 0, none, []⟩ : Sys Nat)).atIdx 0 = none ∧
      (readOnlyCopy (⟨updH (fun _ => []) 0 [4, 6], 1, some 0, []⟩ : Sys Nat)).atIdx 1
        = some 6 ∧
      (readOnlyCopy (⟨updH (fun _ => []) 0 [4, 6], 1, some 0, []⟩ : Sys Nat)).atIdx 2
        = none := by
  have h0 := C9_read_only_copy_empty_at (⟨fun _ => [], 0, none, []⟩ : Sys Nat) 0
  have h1 := C9_read_only_copy_empty_at
    (⟨updH (fun _ => []) 0 [4, 6], 1, some 0, []⟩ : Sys Nat) 1
  have h2 := C9_read_only_copy_empty_at
    (⟨updH (fun _ => []) 0 [4, 6], 1, some 0, []⟩ : Sys Nat) 2
  exact ⟨(h0.1 rfl).1, (h0.1 rfl).2.1, (h0.1 rfl).2.2, h0.2.1.mpr (by decide),
    h1.2.2.trans (by decide), h2.2.1.mpr (by decide)⟩

end Cow
